import Mathlib

/-!
Shallow embedding of the clean-orders domain core (TypeScript) in Lean 4.

Modelling conventions:
* JavaScript `number` is modelled by `ℚ`; the source's `Number.isFinite`
  checks are vacuously true in this model and are noted where they occur.
* The TypeScript `Result<T, E>` tagged union is modelled by `Except E T`
  (`ok` ↦ `.ok`, `fail` ↦ `.error`).
* JavaScript `Map` (insertion-ordered, unique keys, `set` replaces in place)
  is modelled by an association list together with `itemsGet` / `itemsSet`
  (and `totGet` / `totSet` for the currency-totals map).
* Class constructors that are private and only reachable through validating
  factories carry the established invariant as a proof field
  (`Quantity.pos`, `Money.nonneg`).
* Mutation of the aggregate is modelled by explicit state passing: a method
  that mutates `this` and returns `Result<void, string>` becomes a function
  `Order → … → Except String Unit × Order` returning the post-state.
-/

set_option linter.unusedVariables false

namespace CleanOrders

/-! ### Currency (src/domain/value-objects/Currency.ts) -/

/-- Currency value object; `code` is one of the supported ISO-4217 codes
whenever it was built through `Currency.create`. -/
structure Currency where
  code : String
deriving DecidableEq, Repr

/-- Charwise ASCII upper-casing, modelling `String.prototype.toUpperCase`
as used on candidate ISO-4217 codes. -/
def jsToUpper (s : String) : String := ⟨s.data.map Char.toUpper⟩

/-- Supported currency codes, from `Currency.isValidCurrencyCode`. -/
def Currency.supportedCurrencies : List String :=
  ["USD", "EUR", "GBP", "JPY", "MXN", "ARS", "CLP"]

/-- Mirrors `Currency.isValidCurrencyCode`. -/
def Currency.isValidCurrencyCode (code : String) : Bool :=
  Currency.supportedCurrencies.contains code

/-- Mirrors `Currency.create`: upper-case, then membership test; no trimming. -/
def Currency.create (code : String) : Except String Currency :=
  let upperCode := jsToUpper code
  if Currency.isValidCurrencyCode upperCode then .ok ⟨upperCode⟩
  else .error ("Código de moneda inválido: " ++ code ++
    ". Códigos soportados: USD, EUR, GBP, JPY, MXN, ARS, CLP")

/-- Mirrors `Currency.equals` (code comparison). -/
def Currency.equalsB (a b : Currency) : Bool := a.code == b.code

/-! ### Money (src/domain/value-objects/Money.ts) -/

/-- Money value object. The `nonneg` field records the invariant that the
private constructor is only reached through `create` (which rejects negative
amounts); `Number.isFinite` is vacuous over `ℚ`. -/
structure Money where
  amount : ℚ
  currency : Currency
  nonneg : 0 ≤ amount

instance : DecidableEq Money := fun a b =>
  decidable_of_iff (a.amount = b.amount ∧ a.currency = b.currency)
    (by cases a; cases b; simp)

/-- Mirrors `Money.create`: rejects negative amounts (finiteness is vacuous). -/
def Money.create (amount : ℚ) (currency : Currency) : Except String Money :=
  if h : amount < 0 then .error "El monto no puede ser negativo"
  else .ok ⟨amount, currency, le_of_not_lt h⟩

/-- Mirrors `Money.hasSameCurrency` (via `Currency.equals`). -/
def Money.hasSameCurrency (a b : Money) : Bool := a.currency.code == b.currency.code

/-- Mirrors `Money.add`: requires equal currency, then rebuilds via `create`. -/
def Money.add (a b : Money) : Except String Money :=
  if !(a.hasSameCurrency b) then
    .error ("No se pueden sumar cantidades con monedas diferentes: " ++
      a.currency.code ++ " y " ++ b.currency.code)
  else Money.create (a.amount + b.amount) a.currency

/-- Mirrors `Money.multiply`: rejects negative factors (finiteness vacuous),
then rebuilds via `create`. -/
def Money.multiply (m : Money) (factor : ℚ) : Except String Money :=
  if factor < 0 then
    .error "El factor de multiplicación debe ser un número positivo válido"
  else Money.create (m.amount * factor) m.currency

/-! ### Quantity (src/domain/value-objects/Quantity.ts) -/

/-- Quantity value object; `pos` records the invariant established by
`create` (positive integer) and preserved by `add`. -/
structure Quantity where
  value : ℤ
  pos : 0 < value

instance : DecidableEq Quantity := fun a b =>
  decidable_of_iff (a.value = b.value) (by cases a; cases b; simp)

/-- Mirrors `Quantity.create`: input is a JS number (here `ℚ`); rejects
non-integers and non-positive values. -/
def Quantity.create (value : ℚ) : Except String Quantity :=
  if value.den ≠ 1 then .error "La cantidad debe ser un número entero"
  else if h : value ≤ 0 then .error "La cantidad debe ser mayor que cero"
  else .ok ⟨value.num, Rat.num_pos.mpr (lt_of_not_le h)⟩

/-- Mirrors `Quantity.add`. -/
def Quantity.add (a b : Quantity) : Quantity :=
  ⟨a.value + b.value, add_pos a.pos b.pos⟩

/-! ### ProductId / OrderId (src/domain/value-objects) -/

/-- Mirrors `String.prototype.trim`: strips leading and trailing whitespace
(structurally, so that concrete instances compute in the kernel). -/
def jsTrim (s : String) : String :=
  ⟨((s.data.dropWhile Char.isWhitespace).reverse.dropWhile Char.isWhitespace).reverse⟩

/-- ProductId value object. -/
structure ProductId where
  value : String
deriving DecidableEq, Repr

/-- Mirrors `ProductId.create`: empty or whitespace-only strings fail,
the stored value is trimmed. -/
def ProductId.create (value : String) : Except String ProductId :=
  if value = "" ∨ jsTrim value = "" then .error "El ID del producto no puede estar vacío"
  else .ok ⟨jsTrim value⟩

/-- OrderId value object. -/
structure OrderId where
  value : String
deriving DecidableEq, Repr

/-- Mirrors `OrderId.create`: empty or whitespace-only strings fail,
the stored value is trimmed. -/
def OrderId.create (value : String) : Except String OrderId :=
  if value = "" ∨ jsTrim value = "" then .error "El ID del pedido no puede estar vacío"
  else .ok ⟨jsTrim value⟩

/-- Character used for digit `n` in base-36 (`0-9a-z`), as produced by
JavaScript `Number.prototype.toString(36)`. -/
def base36Char (n : Nat) : Char :=
  if n < 10 then Char.ofNat (48 + n) else Char.ofNat (87 + n)

/-- Accumulator loop for the base-36 rendering of a natural number. -/
def natToBase36Aux : Nat → List Char → List Char
  | 0, acc => acc
  | n + 1, acc => natToBase36Aux ((n + 1) / 36) (base36Char ((n + 1) % 36) :: acc)
decreasing_by exact Nat.div_lt_self (Nat.succ_pos n) (by norm_num)

/-- Base-36 rendering of a natural number, as `Date.now().toString(36)`. -/
def natToBase36 (n : Nat) : String :=
  if n = 0 then "0" else ⟨natToBase36Aux n []⟩

/-- Rendering of `Math.random().toString(36)`: the random value in `[0, 1)`
is represented by the (finite) list of base-36 digits of its fractional
expansion as printed by JavaScript; the value `0` (empty digit list) prints
as `"0"`, any other value as `"0."` followed by its digits. -/
def jsFracToStringBase36 (digits : List (Fin 36)) : String :=
  if digits.isEmpty then "0"
  else ⟨'0' :: '.' :: digits.map (fun d => base36Char d.val)⟩

/-- Mirrors `String.prototype.substring(a, b)` (for `a ≤ b`). -/
def jsSubstring (s : String) (a b : Nat) : String :=
  ⟨(s.data.drop a).take (b - a)⟩

/-- Mirrors `OrderId.generate`, with the clock and the random draw made
explicit: `ORD-` ++ base-36 timestamp ++ `-` ++ `Math.random().toString(36).substring(2, 9)`. -/
def OrderId.generate (nowMs : Nat) (randDigits : List (Fin 36)) : OrderId :=
  ⟨"ORD-" ++ natToBase36 nowMs ++ "-" ++
    jsSubstring (jsFracToStringBase36 randDigits) 2 9⟩

/-! ### OrderItem (src/domain/value-objects/OrderItem.ts) -/

/-- OrderItem value object. -/
structure OrderItem where
  productId : ProductId
  quantity : Quantity
  unitPrice : Money
deriving DecidableEq

/-- Mirrors `OrderItem.create`: the source performs no validation and
unconditionally returns `ok`. -/
def OrderItem.create (productId : ProductId) (quantity : Quantity)
    (unitPrice : Money) : Except String OrderItem :=
  .ok ⟨productId, quantity, unitPrice⟩

/-- Mirrors `OrderItem.calculateSubtotal` (`unitPrice.multiply(quantity.value)`). -/
def OrderItem.calculateSubtotal (item : OrderItem) : Except String Money :=
  item.unitPrice.multiply (item.quantity.value : ℚ)

/-- Mirrors `OrderItem.increaseQuantity`: new item with summed quantity and
the SAME unit price. -/
def OrderItem.increaseQuantity (item : OrderItem) (additionalQuantity : Quantity) : OrderItem :=
  ⟨item.productId, item.quantity.add additionalQuantity, item.unitPrice⟩

/-! ### Domain events (src/domain/events) -/

/-- Domain events of the Order aggregate. Each carries the `aggregateId`
field stored by the `DomainEvent` base-class constructor; the concrete class
constructors pass their static `EVENT_TYPE` string for it. -/
inductive DomainEvent where
  | orderCreated (aggregateId : String) (orderId : OrderId)
  | orderItemAdded (aggregateId : String) (orderId : OrderId) (productId : ProductId)
      (quantity : Quantity) (unitPrice : Money)
  | orderItemQuantityIncreased (aggregateId : String) (orderId : OrderId)
      (productId : ProductId) (previousQuantity newQuantity : Quantity)
deriving DecidableEq

/-- Field `DomainEvent.aggregateId` (set once in the base constructor). -/
def DomainEvent.aggregateId : DomainEvent → String
  | .orderCreated a _ => a
  | .orderItemAdded a _ _ _ _ => a
  | .orderItemQuantityIncreased a _ _ _ _ => a

/-- Static `EVENT_TYPE` of the event's class. -/
def DomainEvent.eventTypeString : DomainEvent → String
  | .orderCreated _ _ => "order.created"
  | .orderItemAdded _ _ _ _ _ => "order.item.added"
  | .orderItemQuantityIncreased _ _ _ _ _ => "order.item.quantity.increased"

/-- Mirrors `new OrderCreated(orderId)`: `super(OrderCreated.EVENT_TYPE)`. -/
def OrderCreated.make (orderId : OrderId) : DomainEvent :=
  .orderCreated "order.created" orderId

/-- Mirrors `new OrderItemAdded(...)`: `super(OrderItemAdded.EVENT_TYPE)`. -/
def OrderItemAdded.make (orderId : OrderId) (productId : ProductId)
    (quantity : Quantity) (unitPrice : Money) : DomainEvent :=
  .orderItemAdded "order.item.added" orderId productId quantity unitPrice

/-- Mirrors `new OrderItemQuantityIncreased(...)`:
`super(OrderItemQuantityIncreased.EVENT_TYPE)`. -/
def OrderItemQuantityIncreased.make (orderId : OrderId) (productId : ProductId)
    (previousQuantity newQuantity : Quantity) : DomainEvent :=
  .orderItemQuantityIncreased "order.item.quantity.increased" orderId productId
    previousQuantity newQuantity

/-! ### Order aggregate (src/domain/entities/Order.ts) -/

/-- Lookup in the insertion-ordered item map (`this._items.get(key)`). -/
def itemsGet (items : List OrderItem) (key : String) : Option OrderItem :=
  items.find? (fun it => it.productId.value == key)

/-- Update in the insertion-ordered item map (`this._items.set(key, item)`):
replaces in place when the key is present, appends otherwise. -/
def itemsSet (items : List OrderItem) (key : String) (item : OrderItem) : List OrderItem :=
  if items.any (fun it => it.productId.value == key) then
    items.map (fun it => if it.productId.value == key then item else it)
  else items ++ [item]

/-- Order aggregate root: id, insertion-ordered items keyed by product id,
and the pending domain-event buffer. The `_createdAt` wall-clock field of the
source is irrelevant to every claim and omitted. -/
structure Order where
  id : OrderId
  items : List OrderItem
  domainEvents : List DomainEvent
deriving DecidableEq

/-- Mirrors the private `Order` constructor: each initial item is entered
into the map with `set`, the event buffer starts empty. -/
def Order.ofItems (id : OrderId) (items : List OrderItem) : Order :=
  ⟨id, items.foldl (fun acc it => itemsSet acc it.productId.value it) [], []⟩

/-- Mirrors `Order.create(id)` for a supplied id: fresh order recording one
`OrderCreated` event. -/
def Order.create (id : OrderId) : Order :=
  { Order.ofItems id [] with domainEvents := [OrderCreated.make id] }

/-- Mirrors `Order.reconstitute`: loads items without emitting events. -/
def Order.reconstitute (id : OrderId) (items : List OrderItem) : Order :=
  Order.ofItems id items

/-- Error message for the zero-price check in `Order.addItem`. -/
def Order.zeroPriceMsg : String := "El precio unitario no puede ser cero"

/-- Error message for the currency-coherence check in `Order.addItem`. -/
def Order.currencyMsg (expected : String) : String :=
  "Todos los items deben tener la misma moneda. Moneda esperada: " ++ expected

/-- Merge-or-append part of `Order.addItem`, after the two initial checks
have passed: existing line ↦ replace with increased quantity and record
`OrderItemQuantityIncreased`; otherwise create the line via
`OrderItem.create` (propagating its error) and record `OrderItemAdded`. -/
def Order.addItemCore (o : Order) (productId : ProductId) (quantity : Quantity)
    (unitPrice : Money) : Except String Unit × Order :=
  match itemsGet o.items productId.value with
  | some existingItem =>
    let updatedItem := existingItem.increaseQuantity quantity
    (.ok (),
      { o with
        items := itemsSet o.items productId.value updatedItem,
        domainEvents := o.domainEvents ++
          [OrderItemQuantityIncreased.make o.id productId existingItem.quantity
            updatedItem.quantity] })
  | none =>
    match OrderItem.create productId quantity unitPrice with
    | .error e => (.error e, o)
    | .ok item =>
      (.ok (),
        { o with
          items := itemsSet o.items productId.value item,
          domainEvents := o.domainEvents ++
            [OrderItemAdded.make o.id productId quantity unitPrice] })

/-- Mirrors `Order.addItem`: zero-price check, then currency check against
the first existing item, then merge-or-append. Returns the result together
with the post-state of the aggregate. -/
def Order.addItem (o : Order) (productId : ProductId) (quantity : Quantity)
    (unitPrice : Money) : Except String Unit × Order :=
  if unitPrice.amount = 0 then (.error Order.zeroPriceMsg, o)
  else
    match o.items.head? with
    | some firstItem =>
      if !(firstItem.unitPrice.hasSameCurrency unitPrice) then
        (.error (Order.currencyMsg firstItem.unitPrice.currency.code), o)
      else Order.addItemCore o productId quantity unitPrice
    | none => Order.addItemCore o productId quantity unitPrice

/-- Lookup in the currency-totals map (`totals.get(code)`). -/
def totGet (totals : List (String × Money)) (key : String) : Option Money :=
  (totals.find? (fun e => e.1 == key)).map (·.2)

/-- Update in the currency-totals map (`totals.set(code, money)`). -/
def totSet (totals : List (String × Money)) (key : String) (v : Money) :
    List (String × Money) :=
  if totals.any (fun e => e.1 == key) then
    totals.map (fun e => if e.1 == key then (key, v) else e)
  else totals ++ [(key, v)]

/-- Loop body of `Order.calculateTotalsByCurrency`: items whose subtotal
fails are skipped; a failing `add` silently keeps the previous total. -/
def Order.totalsStep (totals : List (String × Money)) (item : OrderItem) :
    List (String × Money) :=
  match item.calculateSubtotal with
  | .error _ => totals
  | .ok subtotal =>
    match totGet totals subtotal.currency.code with
    | some existingTotal =>
      match existingTotal.add subtotal with
      | .ok newTotal => totSet totals subtotal.currency.code newTotal
      | .error _ => totals
    | none => totSet totals subtotal.currency.code subtotal

/-- Mirrors `Order.calculateTotalsByCurrency`. -/
def Order.calculateTotalsByCurrency (o : Order) : List (String × Money) :=
  o.items.foldl Order.totalsStep []

/-- Token for the JavaScript `undefined` that
`totals.values().next().value as Money` would yield on an empty totals map;
proven unreachable for the aggregate's reachable states. -/
def Money.undefinedValue : Money := ⟨0, ⟨"undefined"⟩, le_refl 0⟩

/-- Mirrors `Order.calculateTotal`: fails on an empty order, fails when the
totals span more than one currency, otherwise returns the first total. -/
def Order.calculateTotal (o : Order) : Except String Money :=
  if o.items.isEmpty then .error "El pedido no tiene items"
  else
    let totals := o.calculateTotalsByCurrency
    if 1 < totals.length then .error "El pedido contiene múltiples monedas"
    else
      match totals.head? with
      | some e => .ok e.2
      | none => .ok Money.undefinedValue

/-- Mirrors `Order.itemCount`. -/
def Order.itemCount (o : Order) : Nat := o.items.length

/-- Mirrors `Order.getTotalQuantity`. -/
def Order.getTotalQuantity (o : Order) : ℤ :=
  o.items.foldl (fun total item => total + item.quantity.value) 0

/-- Mirrors `Order.hasProduct`. -/
def Order.hasProduct (o : Order) (productId : ProductId) : Bool :=
  o.items.any (fun it => it.productId.value == productId.value)

/-- Mirrors `Order.pullDomainEvents`: returns the buffered events and the
aggregate with an emptied buffer (the `splice` drain). -/
def Order.pullDomainEvents (o : Order) : List DomainEvent × Order :=
  (o.domainEvents, { o with domainEvents := [] })

/-! ### Application layer (src/application) -/

/-- Discriminated application-error union from `AppError.ts` (the opaque
`cause` payload of `InfraError` carries no information in this model). -/
inductive AppError where
  | validation (message : String) (field : Option String)
  | notFound (resource : String) (id : String) (message : String)
  | conflict (message : String) (reason : String)
  | infra (message : String)
deriving DecidableEq

/-- DTO of `CreateOrderUseCase` (`orderId?: string`); `none` models an
absent field. -/
structure CreateOrderDTO where
  orderId : Option String
deriving DecidableEq

/-- Repository behaviour visible to `CreateOrderUseCase`: each operation
either returns its value or throws (modelled by `.error`). -/
structure RepoModel where
  existsRes : String → Except String Bool
  saveRes : Order → Except String Unit

/-- Tail of `CreateOrderUseCase.execute` once the order id is settled:
build the aggregate, persist it, drain and publish events (publication
failures are swallowed), return the order. -/
def CreateOrderUseCase.finish (repo : RepoModel) (orderId : OrderId) :
    Except AppError Order :=
  let order := Order.create orderId
  match repo.saveRes order with
  | .error _ => .error (.infra "Error al persistir el pedido en el repositorio")
  | .ok _ => .ok (Order.pullDomainEvents order).2

/-- Mirrors `CreateOrderUseCase.execute`. JavaScript truthiness of
`dto.orderId` makes both an absent field and the empty string take the
generate branch; `generatedId` stands for the `OrderId.generate()` draw. -/
def CreateOrderUseCase.execute (repo : RepoModel) (generatedId : OrderId)
    (dto : CreateOrderDTO) : Except AppError Order :=
  let provided : Option String :=
    match dto.orderId with
    | some s => if s = "" then none else some s
    | none => none
  match provided with
  | some s =>
    match OrderId.create s with
    | .error e => .error (.validation e (some "orderId"))
    | .ok orderId =>
      match repo.existsRes orderId.value with
      | .error _ => .error (.infra "Error al verificar la existencia del pedido")
      | .ok true =>
        .error (.conflict ("Ya existe un pedido con ID " ++ s) "duplicate_order_id")
      | .ok false => CreateOrderUseCase.finish repo orderId
  | none => CreateOrderUseCase.finish repo generatedId

/-! ### Outbox dispatcher cleanup (OutboxDispatcher.cleanupPublished) -/

/-- Row of the `outbox` table; instants are milliseconds since the epoch,
`published_at = none` models SQL NULL. -/
structure OutboxRow where
  id : String
  aggregateType : String
  aggregateId : String
  eventType : String
  payload : String
  createdAt : ℤ
  publishedAt : Option ℤ
deriving DecidableEq, Repr

/-- Cutoff instant computed by `cleanupPublished`: `new Date()` minus
`olderThanDays` civil days (with an UTC clock, `setDate(getDate() - d)`
subtracts exactly `d·86400000` ms). -/
def cleanupCutoff (nowMs : ℤ) (olderThanDays : ℤ) : ℤ :=
  nowMs - olderThanDays * 86400000

/-- Predicate of the SQL `WHERE published_at IS NOT NULL AND published_at < $1`. -/
def rowExpired (cutoff : ℤ) (r : OutboxRow) : Bool :=
  match r.publishedAt with
  | some t => t < cutoff
  | none => false

/-- Mirrors `OutboxDispatcher.cleanupPublished`: deletes the published rows
older than the cutoff and returns the remaining table together with the
deleted-row count (`result.rowCount`). -/
def OutboxDispatcher.cleanupPublished (nowMs : ℤ) (olderThanDays : ℤ)
    (table : List OutboxRow) : List OutboxRow × Nat :=
  let cutoff := cleanupCutoff nowMs olderThanDays
  (table.filter (fun r => !(rowExpired cutoff r)),
   (table.filter (rowExpired cutoff)).length)

/-! ### Boolean helpers used to state the claims -/

/-- Success test for `Except` results (the `result.ok` tag of `Results.ts`). -/
def isOkB {α : Type} (r : Except String α) : Bool :=
  match r with
  | .ok _ => true
  | .error _ => false

instance {ε α : Type} [DecidableEq ε] [DecidableEq α] : DecidableEq (Except ε α)
  | .ok a, .ok b => decidable_of_iff (a = b) (by simp)
  | .error a, .error b => decidable_of_iff (a = b) (by simp)
  | .ok _, .error _ => isFalse (by simp)
  | .error _, .ok _ => isFalse (by simp)

/-- Decidable form of invariant I1: all items share one currency. -/
def sharesOneCurrencyB (items : List OrderItem) : Bool :=
  items.all (fun a => items.all (fun b =>
    a.unitPrice.currency.code == b.unitPrice.currency.code))

/-- Application of a sequence of `addItem` calls to an order (each call's
post-state feeds the next call). -/
def Order.applyCalls (o : Order) : List (ProductId × Quantity × Money) → Order
  | [] => o
  | c :: cs => Order.applyCalls (o.addItem c.1 c.2.1 c.2.2).2 cs

/-- Holds when every call of the sequence returns success when applied in
order from the given state. -/
def Order.allSucceedB (o : Order) : List (ProductId × Quantity × Money) → Bool
  | [] => true
  | c :: cs =>
    let r := o.addItem c.1 c.2.1 c.2.2
    isOkB r.1 && Order.allSucceedB r.2 cs

/-- Specification-side line sum: Σ quantity · unit price over the lines. -/
def lineSum : List OrderItem → ℚ
  | [] => 0
  | it :: its => it.unitPrice.amount * (it.quantity.value : ℚ) + lineSum its

/-- Character test for the base-36 digit alphabet `0-9a-z`. -/
def isBase36Char (c : Char) : Bool :=
  ('0' ≤ c && c ≤ '9') || ('a' ≤ c && c ≤ 'z')

/-- Whether a string carries leading or trailing whitespace. -/
def hasSurroundingWhitespaceB (s : String) : Bool :=
  (match s.data.head? with | some c => c.isWhitespace | none => false) ||
  (match s.data.getLast? with | some c => c.isWhitespace | none => false)

/-- Subtotal value produced by `OrderItem.calculateSubtotal` in this model
(where the multiply never fails thanks to the `Quantity`/`Money` invariants). -/
def subtotalMoney (it : OrderItem) : Money :=
  ⟨it.unitPrice.amount * (it.quantity.value : ℚ), it.unitPrice.currency,
    mul_nonneg it.unitPrice.nonneg (by exact_mod_cast le_of_lt it.quantity.pos)⟩

/-- Invariant of the currency-totals map: each stored total's currency code
is its own key. -/
def goodTotals (totals : List (String × Money)) : Prop :=
  ∀ e ∈ totals, e.2.currency.code = e.1

/-! ### Concrete sample data used by witnesses and counterexamples -/

def usdCur : Currency := ⟨"USD"⟩

def eurCur : Currency := ⟨"EUR"⟩

def money5USD : Money := ⟨5, usdCur, by norm_num⟩

def money6USD : Money := ⟨6, usdCur, by norm_num⟩

def money7EUR : Money := ⟨7, eurCur, by norm_num⟩

def zeroMoneyUSD : Money := ⟨0, usdCur, le_refl 0⟩

def qty1 : Quantity := ⟨1, by norm_num⟩

def qty2W : Quantity := ⟨2, by norm_num⟩

def qty3W : Quantity := ⟨3, by norm_num⟩

/-- Order reconstituted from storage with two currencies (reconstitution
performs no validation). -/
def mixedOrder : Order :=
  Order.reconstitute ⟨"ORD-MIX"⟩
    [⟨⟨"P1"⟩, qty1, money5USD⟩, ⟨⟨"P2"⟩, qty1, money7EUR⟩]

def mergeItem : OrderItem := ⟨⟨"P1"⟩, qty2W, money5USD⟩

def mergeOrder : Order := Order.reconstitute ⟨"ORD-W1"⟩ [mergeItem]

def totalOrder : Order :=
  Order.reconstitute ⟨"ORD-W5"⟩ [⟨⟨"P1"⟩, qty2W, money5USD⟩]

def totalMoneyW : Money := ⟨10, usdCur, by norm_num⟩

/-- Repository double whose operations always succeed. -/
def okRepo : RepoModel := ⟨fun _ => .ok false, fun _ => .ok ()⟩

def rowOldPublished : OutboxRow :=
  ⟨"r1", "Order", "order.created", "OrderCreated", "{}", 0, some 0⟩

def rowFreshPublished : OutboxRow :=
  ⟨"r2", "Order", "order.created", "OrderCreated", "{}", 0, some 999999999⟩

def rowUnpublished : OutboxRow :=
  ⟨"r3", "Order", "order.item.added", "OrderItemAdded", "{}", 0, none⟩

def sampleOutbox : List OutboxRow :=
  [rowOldPublished, rowFreshPublished, rowUnpublished]

end CleanOrders

namespace CleanOrders

/-! ### Helper lemmas -/

theorem quantity_cast_nonneg (q : Quantity) : ¬((q.value : ℚ) < 0) := by
  rw [not_lt]
  exact_mod_cast le_of_lt q.pos

theorem subtotal_ok (it : OrderItem) :
    it.calculateSubtotal = .ok (subtotalMoney it) := by
  have h1 := quantity_cast_nonneg it.quantity
  have h2 : ¬(it.unitPrice.amount * (it.quantity.value : ℚ) < 0) :=
    not_lt.mpr (mul_nonneg it.unitPrice.nonneg (not_lt.mp h1))
  simp [OrderItem.calculateSubtotal, Money.multiply, Money.create, h1, h2, subtotalMoney]

theorem subtotalMoney_currency (it : OrderItem) :
    (subtotalMoney it).currency = it.unitPrice.currency := rfl

theorem subtotalMoney_amount (it : OrderItem) :
    (subtotalMoney it).amount = it.unitPrice.amount * (it.quantity.value : ℚ) := rfl

theorem add_same_code (a b : Money) (h : a.currency.code = b.currency.code) :
    a.add b = .ok ⟨a.amount + b.amount, a.currency, add_nonneg a.nonneg b.nonneg⟩ := by
  have hbeq : (a.currency.code == b.currency.code) = true := beq_iff_eq.mpr h
  have hnn : ¬(a.amount + b.amount < 0) := not_lt.mpr (add_nonneg a.nonneg b.nonneg)
  simp [Money.add, Money.hasSameCurrency, Money.create, hbeq, hnn]

theorem totGet_some_elim (totals : List (String × Money)) (k : String) (m : Money)
    (h : totGet totals k = some m) : ∃ e ∈ totals, e.1 = k ∧ e.2 = m := by
  unfold totGet at h
  cases hf : totals.find? (fun e => e.1 == k) with
  | none => rw [hf] at h; simp at h
  | some e =>
    rw [hf] at h
    have he : e ∈ totals := List.mem_of_find?_eq_some hf
    have hk : (e.1 == k) = true := by simpa using List.find?_some hf
    exact ⟨e, he, beq_iff_eq.mp hk, by simpa using h⟩

theorem totGet_none_not_any (totals : List (String × Money)) (k : String)
    (h : totGet totals k = none) : totals.any (fun e => e.1 == k) = false := by
  unfold totGet at h
  cases hf : totals.find? (fun e => e.1 == k) with
  | some e => rw [hf] at h; simp at h
  | none =>
    rw [List.find?_eq_none] at hf
    rw [Bool.eq_false_iff]
    intro hany
    obtain ⟨x, hx, hxk⟩ := List.any_eq_true.mp hany
    exact absurd hxk (by simpa using hf x hx)

theorem totSet_append (totals : List (String × Money)) (k : String) (v : Money)
    (h : totals.any (fun e => e.1 == k) = false) :
    totSet totals k v = totals ++ [(k, v)] := by
  unfold totSet
  rw [if_neg]
  simp [h]

theorem totSet_replace (totals : List (String × Money)) (k : String) (v : Money)
    (h : totals.any (fun e => e.1 == k) = true) :
    totSet totals k v = totals.map (fun e => if e.1 == k then (k, v) else e) := by
  unfold totSet
  rw [if_pos h]

theorem totGet_some_any (totals : List (String × Money)) (k : String) (m : Money)
    (h : totGet totals k = some m) : totals.any (fun e => e.1 == k) = true := by
  obtain ⟨e, he, hek, _⟩ := totGet_some_elim totals k m h
  exact List.any_eq_true.mpr ⟨e, he, beq_iff_eq.mpr hek⟩

theorem totalsStep_eq (totals : List (String × Money)) (it : OrderItem)
    (hg : goodTotals totals) :
    (∃ exm, totGet totals (subtotalMoney it).currency.code = some exm ∧
        Order.totalsStep totals it = totSet totals (subtotalMoney it).currency.code
          ⟨exm.amount + (subtotalMoney it).amount, exm.currency,
            add_nonneg exm.nonneg (subtotalMoney it).nonneg⟩) ∨
    (totGet totals (subtotalMoney it).currency.code = none ∧
        Order.totalsStep totals it =
          totals ++ [((subtotalMoney it).currency.code, subtotalMoney it)]) := by
  cases hget : totGet totals (subtotalMoney it).currency.code with
  | some exm =>
    left
    refine ⟨exm, rfl, ?_⟩
    obtain ⟨e, he, hek, hem⟩ := totGet_some_elim _ _ _ hget
    have hcode : exm.currency.code = (subtotalMoney it).currency.code := by
      rw [← hem]; rw [← hek]; exact hg e he
    unfold Order.totalsStep
    rw [subtotal_ok it]
    simp only [hget, add_same_code exm (subtotalMoney it) hcode]
  | none =>
    right
    refine ⟨rfl, ?_⟩
    unfold Order.totalsStep
    rw [subtotal_ok it]
    simp only [hget]
    exact totSet_append _ _ _ (totGet_none_not_any _ _ hget)

theorem totalsStep_good (totals : List (String × Money)) (it : OrderItem)
    (hg : goodTotals totals) : goodTotals (Order.totalsStep totals it) := by
  rcases totalsStep_eq totals it hg with ⟨exm, hget, heq⟩ | ⟨hget, heq⟩
  · rw [heq, totSet_replace _ _ _ (totGet_some_any _ _ _ hget)]
    intro e he
    obtain ⟨e0, he0, rfl⟩ := List.mem_map.mp he
    obtain ⟨e1, he1, he1k, he1m⟩ := totGet_some_elim _ _ _ hget
    by_cases h : (e0.1 == (subtotalMoney it).currency.code) = true
    · simp only [h, if_true]
      show exm.currency.code = (subtotalMoney it).currency.code
      rw [← he1m, ← he1k]
      exact hg e1 he1
    · simp only [h]
      rw [if_neg (by simp [h])]
      exact hg e0 he0
  · rw [heq]
    intro e he
    rcases List.mem_append.mp he with h | h
    · exact hg e h
    · rw [List.mem_singleton.mp h]

theorem totalsStep_keys_mono (totals : List (String × Money)) (it : OrderItem)
    (hg : goodTotals totals) :
    (∀ k ∈ totals.map Prod.fst, k ∈ (Order.totalsStep totals it).map Prod.fst) ∧
    (subtotalMoney it).currency.code ∈ (Order.totalsStep totals it).map Prod.fst := by
  rcases totalsStep_eq totals it hg with ⟨exm, hget, heq⟩ | ⟨hget, heq⟩
  · rw [heq, totSet_replace _ _ _ (totGet_some_any _ _ _ hget)]
    have hkeys : (totals.map (fun e =>
        if e.1 == (subtotalMoney it).currency.code
        then ((subtotalMoney it).currency.code, (⟨exm.amount + (subtotalMoney it).amount,
          exm.currency, add_nonneg exm.nonneg (subtotalMoney it).nonneg⟩ : Money))
        else e)).map Prod.fst = totals.map Prod.fst := by
      rw [List.map_map]
      apply List.map_congr_left
      intro e he
      by_cases h : (e.1 == (subtotalMoney it).currency.code) = true
      · simp only [Function.comp_apply, h, if_true]
        exact (beq_iff_eq.mp h).symm
      · simp only [Function.comp_apply, h]
        rw [if_neg (by simp [h])]
    rw [hkeys]
    obtain ⟨e1, he1, he1k, _⟩ := totGet_some_elim _ _ _ hget
    exact ⟨fun k hk => hk, he1k ▸ List.mem_map_of_mem _ he1⟩
  · rw [heq]
    simp only [List.map_append, List.map_cons, List.map_nil]
    exact ⟨fun k hk => List.mem_append_left _ hk,
      List.mem_append_right _ (List.mem_singleton.mpr rfl)⟩

theorem totalsFold_good_keys (items : List OrderItem) :
    ∀ totals : List (String × Money), goodTotals totals →
      goodTotals (items.foldl Order.totalsStep totals) ∧
      (∀ k ∈ totals.map Prod.fst,
        k ∈ (items.foldl Order.totalsStep totals).map Prod.fst) ∧
      (∀ it ∈ items,
        it.unitPrice.currency.code ∈ (items.foldl Order.totalsStep totals).map Prod.fst) := by
  induction items with
  | nil =>
    intro totals hg
    exact ⟨hg, fun k hk => hk, by simp⟩
  | cons it items ih =>
    intro totals hg
    rw [List.foldl_cons]
    obtain ⟨ihg, ihmono, ihmem⟩ := ih (Order.totalsStep totals it) (totalsStep_good totals it hg)
    obtain ⟨hmono, hmem⟩ := totalsStep_keys_mono totals it hg
    refine ⟨ihg, fun k hk => ihmono k (hmono k hk), ?_⟩
    intro x hx
    rcases List.mem_cons.mp hx with h | h
    · subst h
      exact ihmono _ hmem
    · exact ihmem x h

theorem totalsFold_single (c : String) :
    ∀ (items : List OrderItem),
      (∀ it ∈ items, it.unitPrice.currency.code = c) →
      ∀ m0 : Money, m0.currency.code = c →
        ∃ m' : Money, items.foldl Order.totalsStep [(c, m0)] = [(c, m')] ∧
          m'.amount = m0.amount + lineSum items ∧ m'.currency = m0.currency := by
  intro items
  induction items with
  | nil =>
    intro _ m0 hm0
    exact ⟨m0, rfl, by simp [lineSum], rfl⟩
  | cons it items ih =>
    intro hall m0 hm0
    have hit : it.unitPrice.currency.code = c := hall it (List.mem_cons_self it items)
    have hkey : (subtotalMoney it).currency.code = c := hit
    have hg : goodTotals [(c, m0)] := by
      intro e he
      rw [List.mem_singleton.mp he]
      exact hm0
    rw [List.foldl_cons]
    rcases totalsStep_eq [(c, m0)] it hg with ⟨exm, hget, heq⟩ | ⟨hget, heq⟩
    · have hm0' : totGet [(c, m0)] (subtotalMoney it).currency.code = some m0 := by
        simp [totGet, hkey]
      rw [hm0'] at hget
      have hexm : exm = m0 := by simpa using hget.symm
      rw [hexm] at heq
      have hany : ([(c, m0)] : List (String × Money)).any
          (fun e => e.1 == (subtotalMoney it).currency.code) = true := by
        simp [hkey]
      rw [totSet_replace _ _ _ hany] at heq
      have hrw : ([(c, m0)] : List (String × Money)).map
          (fun e => if e.1 == (subtotalMoney it).currency.code
            then ((subtotalMoney it).currency.code,
              (⟨m0.amount + (subtotalMoney it).amount, m0.currency,
                add_nonneg m0.nonneg (subtotalMoney it).nonneg⟩ : Money))
            else e) =
          [(c, (⟨m0.amount + (subtotalMoney it).amount, m0.currency,
              add_nonneg m0.nonneg (subtotalMoney it).nonneg⟩ : Money))] := by
        simp [hkey]
      rw [hrw] at heq
      rw [heq]
      obtain ⟨m', hfold, ham, hcur⟩ :=
        ih (fun x hx => hall x (List.mem_cons_of_mem _ hx))
          ⟨m0.amount + (subtotalMoney it).amount, m0.currency,
            add_nonneg m0.nonneg (subtotalMoney it).nonneg⟩ hm0
      refine ⟨m', hfold, ?_, hcur⟩
      rw [ham]
      show m0.amount + (subtotalMoney it).amount + lineSum items =
        m0.amount + lineSum (it :: items)
      simp only [lineSum, subtotalMoney_amount]
      ring
    · exfalso
      have hm0' : totGet [(c, m0)] (subtotalMoney it).currency.code = some m0 := by
        simp [totGet, hkey]
      rw [hm0'] at hget
      exact Option.noConfusion hget

theorem totals_coherent_char (o : Order) (c : String)
    (hne : o.items ≠ [])
    (hall : ∀ it ∈ o.items, it.unitPrice.currency.code = c) :
    ∃ m' : Money, o.calculateTotalsByCurrency = [(c, m')] ∧
      m'.amount = lineSum o.items ∧ m'.currency.code = c := by
  obtain ⟨it, rest, hitems⟩ : ∃ it rest, o.items = it :: rest := by
    cases h : o.items with
    | nil => exact absurd h hne
    | cons a l => exact ⟨a, l, rfl⟩
  have hit : it.unitPrice.currency.code = c := hall it (by rw [hitems]; exact List.mem_cons_self it rest)
  have hkey : (subtotalMoney it).currency.code = c := hit
  unfold Order.calculateTotalsByCurrency
  rw [hitems, List.foldl_cons]
  have hstep : Order.totalsStep [] it =
      [(c, subtotalMoney it)] := by
    rcases totalsStep_eq [] it (by intro e he; simp at he) with ⟨exm, hget, _⟩ | ⟨hget, heq⟩
    · simp [totGet] at hget
    · rw [heq, hkey]
      rfl
  rw [hstep]
  obtain ⟨m', hfold, ham, hcur⟩ :=
    totalsFold_single c rest
      (fun x hx => hall x (by rw [hitems]; exact List.mem_cons_of_mem _ hx))
      (subtotalMoney it) hkey
  refine ⟨m', hfold, ?_, by rw [hcur]; exact hkey⟩
  rw [ham]
  simp only [lineSum, subtotalMoney_amount]

theorem totals_nonempty (o : Order) (hne : o.items ≠ []) :
    o.calculateTotalsByCurrency ≠ [] := by
  obtain ⟨it, rest, hitems⟩ : ∃ it rest, o.items = it :: rest := by
    cases h : o.items with
    | nil => exact absurd h hne
    | cons a l => exact ⟨a, l, rfl⟩
  obtain ⟨_, _, hmem⟩ := totalsFold_good_keys o.items [] (by intro e he; simp at he)
  have := hmem it (by rw [hitems]; exact List.mem_cons_self it rest)
  intro hnil
  unfold Order.calculateTotalsByCurrency at hnil
  rw [hnil] at this
  simp at this

theorem totals_keys_cover (o : Order) :
    ∀ it ∈ o.items,
      it.unitPrice.currency.code ∈ o.calculateTotalsByCurrency.map Prod.fst := by
  obtain ⟨_, _, hmem⟩ := totalsFold_good_keys o.items [] (by intro e he; simp at he)
  exact hmem

theorem sharesOne_iff (items : List OrderItem) :
    sharesOneCurrencyB items = true ↔
      ∀ a ∈ items, ∀ b ∈ items,
        a.unitPrice.currency.code = b.unitPrice.currency.code := by
  simp [sharesOneCurrencyB, List.all_eq_true]

theorem Order.addItem_preserves_coherence (o : Order) (p : ProductId)
    (q : Quantity) (m : Money)
    (hco : sharesOneCurrencyB o.items = true)
    (hok : isOkB (o.addItem p q m).1 = true) :
    sharesOneCurrencyB ((o.addItem p q m).2).items = true := by
  rw [sharesOne_iff] at hco ⊢
  by_cases h0 : m.amount = 0
  · simp [Order.addItem, h0, isOkB] at hok
  · cases hhd : o.items.head? with
    | none =>
      have hnil : o.items = [] := List.head?_eq_none_iff.mp hhd
      have hget : itemsGet o.items p.value = none := by simp [itemsGet, hnil]
      have hred : (o.addItem p q m).2 =
          { o with
            items := itemsSet o.items p.value ⟨p, q, m⟩,
            domainEvents := o.domainEvents ++ [OrderItemAdded.make o.id p q m] } := by
        simp [Order.addItem, Order.addItemCore, OrderItem.create, h0, hhd, hget]
      rw [hred]
      simp [itemsSet, hnil]
    | some f =>
      have hf : f ∈ o.items := List.mem_of_mem_head? (by rw [hhd]; rfl)
      by_cases hc : f.unitPrice.hasSameCurrency m = true
      · cases hget : itemsGet o.items p.value with
        | some ex =>
          have hexmem : ex ∈ o.items := List.mem_of_find?_eq_some hget
          have hred : (o.addItem p q m).2 =
              { o with
                items := itemsSet o.items p.value (ex.increaseQuantity q),
                domainEvents := o.domainEvents ++
                  [OrderItemQuantityIncreased.make o.id p ex.quantity
                    (ex.increaseQuantity q).quantity] } := by
            simp [Order.addItem, Order.addItemCore, h0, hhd, hc, hget]
          rw [hred]
          intro a ha b hb
          have hcode : ∀ x ∈ itemsSet o.items p.value (ex.increaseQuantity q),
              ∃ x0 ∈ o.items, x.unitPrice.currency.code = x0.unitPrice.currency.code := by
            intro x hx
            simp only [itemsSet] at hx
            split at hx
            · obtain ⟨x0, hx0, rfl⟩ := List.mem_map.mp hx
              by_cases hxk : x0.productId.value = p.value
              · refine ⟨ex, hexmem, ?_⟩
                simp [hxk, OrderItem.increaseQuantity]
              · refine ⟨x0, hx0, ?_⟩
                simp [hxk]
            · rcases List.mem_append.mp hx with h | h
              · exact ⟨x, h, rfl⟩
              · refine ⟨ex, hexmem, ?_⟩
                rw [List.mem_singleton.mp h]
                simp [OrderItem.increaseQuantity]
          obtain ⟨a0, ha0, hae⟩ := hcode a ha
          obtain ⟨b0, hb0, hbe⟩ := hcode b hb
          rw [hae, hbe]
          exact hco a0 ha0 b0 hb0
        | none =>
          have hred : (o.addItem p q m).2 =
              { o with
                items := itemsSet o.items p.value ⟨p, q, m⟩,
                domainEvents := o.domainEvents ++
                  [OrderItemAdded.make o.id p q m] } := by
            simp [Order.addItem, Order.addItemCore, OrderItem.create, h0, hhd, hc, hget]
          rw [hred]
          have hmf : m.currency.code = f.unitPrice.currency.code := by
            have := beq_iff_eq.mp hc
            exact this.symm
          have hnew : itemsSet o.items p.value ⟨p, q, m⟩ = o.items ++ [⟨p, q, m⟩] := by
            simp only [itemsSet]
            rw [if_neg]
            intro hany
            obtain ⟨x, hx, hxk⟩ := List.any_eq_true.mp hany
            have : itemsGet o.items p.value ≠ none := by
              simp only [itemsGet, ne_eq, List.find?_eq_none]
              push_neg
              exact ⟨x, hx, hxk⟩
            exact this hget
          rw [hnew]
          intro a ha b hb
          have hcode : ∀ x ∈ o.items ++ [(⟨p, q, m⟩ : OrderItem)],
              x.unitPrice.currency.code = f.unitPrice.currency.code := by
            intro x hx
            rcases List.mem_append.mp hx with h | h
            · exact hco x h f hf
            · rw [List.mem_singleton.mp h]
              exact hmf
          rw [hcode a ha, hcode b hb]
      · simp [Order.addItem, h0, hhd, hc, isOkB] at hok

theorem filter_replace (k : String) (u : OrderItem)
    (hu : (u.productId.value == k) = true) :
    ∀ items : List OrderItem,
      (items.map (fun it => it.productId.value)).Nodup →
      items.any (fun it => it.productId.value == k) = true →
      List.filter (fun it => it.productId.value == k)
        (items.map (fun it => if it.productId.value == k then u else it)) = [u] := by
  intro items
  induction items with
  | nil => intro _ h; simp at h
  | cons a items ih =>
    intro hnd hany
    simp only [List.map_cons, List.nodup_cons] at hnd
    by_cases ha : (a.productId.value == k) = true
    · have hak : a.productId.value = k := beq_iff_eq.mp ha
      have hrest : List.filter (fun it => it.productId.value == k)
          (items.map (fun it => if it.productId.value == k then u else it)) = [] := by
        rw [List.filter_eq_nil_iff]
        intro x hx
        obtain ⟨x0, hx0, rfl⟩ := List.mem_map.mp hx
        have hx0k : (x0.productId.value == k) = false := by
          rw [beq_eq_false_iff_ne]
          intro hx0k
          exact hnd.1 (hak ▸ hx0k ▸ List.mem_map_of_mem _ hx0)
        simp [hx0k]
      have huk : u.productId.value = k := beq_iff_eq.mp hu
      simp only [List.map_cons, List.filter_cons, hak, if_true, huk, beq_self_eq_true]
      simpa [hak, huk] using hrest
    · have ha' : (a.productId.value == k) = false := by
        rwa [Bool.not_eq_true] at ha
      have hany' : items.any (fun it => it.productId.value == k) = true := by
        simpa [List.any_cons, ha'] using hany
      simp only [List.map_cons, ha', if_neg, Bool.false_eq_true, List.filter_cons, ha']
      simpa [ha'] using ih hnd.2 hany'

theorem filter_length_partition {α : Type} (p : α → Bool) (l : List α) :
    (l.filter p).length + (l.filter (fun a => !(p a))).length = l.length := by
  induction l with
  | nil => rfl
  | cons a l ih =>
    by_cases h : p a <;> simp [List.filter_cons, h, ← ih] <;> omega

theorem ws_toUpper (c : Char) (h : c.isWhitespace = true) : c.toUpper = c := by
  simp [Char.isWhitespace] at h
  rcases h with ((h | h) | h) | h <;> subst h <;> decide

theorem ws_not_mem_supported (s : String) (hws : hasSurroundingWhitespaceB s = true) :
    jsToUpper s ∉ Currency.supportedCurrencies := by
  intro hmem
  have hd : (jsToUpper s).data = s.data.map Char.toUpper := rfl
  unfold hasSurroundingWhitespaceB at hws
  rw [Bool.or_eq_true] at hws
  simp only [Currency.supportedCurrencies, List.mem_cons, List.not_mem_nil, or_false] at hmem
  rcases hws with hws | hws
  · cases hh : s.data.head? with
    | none => rw [hh] at hws; exact Bool.false_ne_true hws
    | some c =>
      rw [hh] at hws
      have hws' : c.isWhitespace = true := hws
      have hup : (jsToUpper s).data.head? = some c := by
        rw [hd, List.head?_map, hh]
        simp [ws_toUpper c hws']
      rcases hmem with h | h | h | h | h | h | h <;>
        (rw [h] at hup
         have hc : _ = c := Option.some.inj hup
         subst hc
         exact absurd hws' (by decide))
  · cases hh : s.data.getLast? with
    | none => rw [hh] at hws; exact Bool.false_ne_true hws
    | some c =>
      rw [hh] at hws
      have hws' : c.isWhitespace = true := hws
      have hup : (jsToUpper s).data.getLast? = some c := by
        rw [hd, List.getLast?_map, hh]
        simp [ws_toUpper c hws']
      rcases hmem with h | h | h | h | h | h | h <;>
        (rw [h] at hup
         have hc : _ = c := Option.some.inj hup
         subst hc
         exact absurd hws' (by decide))

theorem base36Char_isBase36 (d : Fin 36) : isBase36Char (base36Char d.val) = true := by
  revert d; decide

end CleanOrders

namespace CleanOrders

/-! ### Claim theorems -/

/-- C1: for an order already holding a line for product `p` (item `ex`,
quantity `ex.quantity`, unit price `ex.unitPrice`), a successful
`addItem(p, q2, price2)` leaves exactly one line for `p` — with quantity
`ex.quantity + q2` and the ORIGINAL unit price, even when `price2` differs —
and appends exactly one `OrderItemQuantityIncreased` event carrying
`previousQuantity = ex.quantity` and `newQuantity = ex.quantity + q2`. -/
theorem Order.addItem_merge_spec (o : Order) (p : ProductId) (ex : OrderItem)
    (q2 : Quantity) (price2 : Money)
    (hnd : (o.items.map (fun it => it.productId.value)).Nodup)
    (hex : itemsGet o.items p.value = some ex)
    (hok : isOkB (o.addItem p q2 price2).1 = true) :
    ((o.addItem p q2 price2).2.items.filter
        (fun it => it.productId.value == p.value) =
      [⟨ex.productId, ex.quantity.add q2, ex.unitPrice⟩])
  ∧ (o.addItem p q2 price2).2.domainEvents = o.domainEvents ++
      [OrderItemQuantityIncreased.make o.id p ex.quantity (ex.quantity.add q2)]
  ∧ (ex.quantity.add q2).value = ex.quantity.value + q2.value := by
  by_cases h0 : price2.amount = 0
  · simp [Order.addItem, h0, isOkB] at hok
  · cases hhd : o.items.head? with
    | none =>
      have hnil : o.items = [] := List.head?_eq_none_iff.mp hhd
      rw [hnil] at hex
      simp [itemsGet] at hex
    | some f =>
      by_cases hc : f.unitPrice.hasSameCurrency price2 = true
      · have hex' : o.items.find? (fun it => it.productId.value == p.value) = some ex := hex
        have key : (ex.productId.value == p.value) = true := by
          simpa using List.find?_some hex'
        have hany : o.items.any (fun it => it.productId.value == p.value) = true :=
          List.any_eq_true.mpr ⟨ex, List.mem_of_find?_eq_some hex', key⟩
        have hred : o.addItem p q2 price2 = (.ok (),
            { o with
              items := itemsSet o.items p.value (ex.increaseQuantity q2),
              domainEvents := o.domainEvents ++
                [OrderItemQuantityIncreased.make o.id p ex.quantity
                  (ex.increaseQuantity q2).quantity] }) := by
          simp [Order.addItem, Order.addItemCore, h0, hhd, hc, hex]
        rw [hred]
        refine ⟨?_, rfl, rfl⟩
        have hu : ((ex.increaseQuantity q2).productId.value == p.value) = true := key
        simp only [itemsSet, hany, if_true]
        exact filter_replace p.value (ex.increaseQuantity q2) hu o.items hnd hany
      · simp [Order.addItem, h0, hhd, hc, isOkB] at hok

/-- C1 witness: merging quantity 3 into an existing USD line of quantity 2
at a different price (6 instead of the stored 5). -/
theorem Order.addItem_merge_spec_witness :
    ((mergeOrder.addItem ⟨"P1"⟩ qty3W money6USD).2.items.filter
        (fun it => it.productId.value == (⟨"P1"⟩ : ProductId).value) =
      [⟨mergeItem.productId, mergeItem.quantity.add qty3W, mergeItem.unitPrice⟩])
  ∧ (mergeOrder.addItem ⟨"P1"⟩ qty3W money6USD).2.domainEvents =
      mergeOrder.domainEvents ++
      [OrderItemQuantityIncreased.make mergeOrder.id ⟨"P1"⟩ mergeItem.quantity
        (mergeItem.quantity.add qty3W)]
  ∧ (mergeItem.quantity.add qty3W).value = mergeItem.quantity.value + qty3W.value :=
  Order.addItem_merge_spec mergeOrder ⟨"P1"⟩ mergeItem qty3W money6USD
    (by decide) (by decide) (by decide)

/-- C2 counterexample: the claim quantifies over EVERY order, but
`Order.reconstitute` performs no currency validation, so an order loaded with
a USD line and a EUR line admits a successful `addItem` (checked only against
the FIRST item's currency) after which the items do not share one currency. -/
theorem Order.currency_coherence_counterexample :
    Order.allSucceedB mixedOrder [(⟨"P3"⟩, qty1, money5USD)] = true ∧
    sharesOneCurrencyB (mixedOrder.applyCalls [(⟨"P3"⟩, qty1, money5USD)]).items = false := by
  constructor <;> decide

/-- C2 (amended): for every order whose items initially all share a single
currency — in particular every freshly created order — after any sequence of
successful `addItem` calls all items still share a single currency. -/
theorem Order.currency_coherence_of_initial (o : Order)
    (calls : List (ProductId × Quantity × Money))
    (hco : sharesOneCurrencyB o.items = true)
    (hall : Order.allSucceedB o calls = true) :
    sharesOneCurrencyB (o.applyCalls calls).items = true := by
  induction calls generalizing o with
  | nil => exact hco
  | cons c cs ih =>
    simp only [Order.allSucceedB, Bool.and_eq_true] at hall
    exact ih _ (Order.addItem_preserves_coherence o c.1 c.2.1 c.2.2 hco hall.1) hall.2

/-- C2 witness: a fresh order after two successful USD `addItem` calls. -/
theorem Order.currency_coherence_of_initial_witness :
    sharesOneCurrencyB ((Order.create ⟨"ORD-W2"⟩).applyCalls
      [(⟨"P1"⟩, qty1, money5USD), (⟨"P1"⟩, qty1, money5USD)]).items = true :=
  Order.currency_coherence_of_initial (Order.create ⟨"ORD-W2"⟩)
    [(⟨"P1"⟩, qty1, money5USD), (⟨"P1"⟩, qty1, money5USD)]
    (by decide) (by decide)

/-- C3: every domain event constructed by the Order aggregate carries in its
`aggregateId` field the event-type string of its class (`order.created`,
`order.item.added`, `order.item.quantity.increased`), not the order's id. -/
theorem DomainEvent.aggregateId_eq_eventType :
    (∀ id : OrderId, ∀ e ∈ (Order.create id).domainEvents,
        e.aggregateId = e.eventTypeString)
  ∧ (∀ (o : Order) (p : ProductId) (q : Quantity) (m : Money),
      ∀ e ∈ ((o.addItem p q m).2).domainEvents,
        e ∈ o.domainEvents ∨ e.aggregateId = e.eventTypeString)
  ∧ (∀ oid : OrderId, oid.value ≠ "order.created" →
      (OrderCreated.make oid).aggregateId ≠ oid.value) := by
  refine ⟨?_, ?_, ?_⟩
  · intro id e he
    simp only [Order.create, Order.ofItems, List.foldl_nil, List.mem_singleton] at he
    subst he; rfl
  · intro o p q m e he
    by_cases h0 : m.amount = 0
    · simp [Order.addItem, h0] at he
      exact Or.inl he
    · have core : ∀ he' : e ∈ ((Order.addItemCore o p q m).2).domainEvents,
          e ∈ o.domainEvents ∨ e.aggregateId = e.eventTypeString := by
        intro he'
        cases hget : itemsGet o.items p.value with
        | none =>
          simp [Order.addItemCore, OrderItem.create, hget] at he'
          rcases he' with h | h
          · exact Or.inl h
          · subst h; exact Or.inr rfl
        | some ex =>
          simp [Order.addItemCore, hget] at he'
          rcases he' with h | h
          · exact Or.inl h
          · subst h; exact Or.inr rfl
      cases hhd : o.items.head? with
      | none =>
        simp only [Order.addItem, h0, if_false, hhd] at he
        exact core he
      | some f =>
        by_cases hc : f.unitPrice.hasSameCurrency m = true
        · simp only [Order.addItem, h0, if_false, hhd, hc, Bool.not_true,
            Bool.false_eq_true, if_neg] at he
          exact core he
        · simp [Order.addItem, h0, hhd, hc] at he
          exact Or.inl he
  · intro oid hne h
    exact hne (by simpa [OrderCreated.make, DomainEvent.aggregateId] using h.symm)

/-- C3 witness: the `OrderCreated` event of a freshly created order carries
the event-type string, not the order id. -/
theorem DomainEvent.aggregateId_eq_eventType_witness :
    (OrderCreated.make ⟨"ORD-W3"⟩).aggregateId =
      (OrderCreated.make ⟨"ORD-W3"⟩).eventTypeString ∧
    (OrderCreated.make ⟨"ORD-W3"⟩).aggregateId ≠ (⟨"ORD-W3"⟩ : OrderId).value :=
  ⟨(DomainEvent.aggregateId_eq_eventType).1 ⟨"ORD-W3"⟩
      (OrderCreated.make ⟨"ORD-W3"⟩) (by decide),
   (DomainEvent.aggregateId_eq_eventType).2.2 ⟨"ORD-W3"⟩ (by decide)⟩

end CleanOrders

namespace CleanOrders

/-- C4: in `CreateOrderUseCase.execute`, an absent `dto.orderId` and an
empty-string `dto.orderId` both take the generate branch (a fresh id is used,
never a validation error), while a non-empty whitespace-only `dto.orderId`
yields a `ValidationError` on field `orderId`. -/
theorem CreateOrderUseCase.orderId_handling (repo : RepoModel) (generatedId : OrderId) :
    (CreateOrderUseCase.execute repo generatedId ⟨none⟩ =
        CreateOrderUseCase.finish repo generatedId)
  ∧ (CreateOrderUseCase.execute repo generatedId ⟨some ""⟩ =
        CreateOrderUseCase.finish repo generatedId)
  ∧ (∀ e f, CreateOrderUseCase.execute repo generatedId ⟨none⟩ ≠
        .error (.validation e f))
  ∧ (∀ e f, CreateOrderUseCase.execute repo generatedId ⟨some ""⟩ ≠
        .error (.validation e f))
  ∧ (repo.saveRes (Order.create generatedId) = .ok () →
      CreateOrderUseCase.execute repo generatedId ⟨none⟩ =
        .ok { Order.create generatedId with domainEvents := [] })
  ∧ (∀ s : String, s ≠ "" → jsTrim s = "" →
      CreateOrderUseCase.execute repo generatedId ⟨some s⟩ =
        .error (.validation "El ID del pedido no puede estar vacío" (some "orderId"))) := by
  refine ⟨rfl, rfl, ?_, ?_, ?_, ?_⟩
  · intro e f
    unfold CreateOrderUseCase.execute CreateOrderUseCase.finish
    cases hs : repo.saveRes (Order.create generatedId) <;> simp [hs]
  · intro e f
    unfold CreateOrderUseCase.execute CreateOrderUseCase.finish
    cases hs : repo.saveRes (Order.create generatedId) <;> simp [hs]
  · intro hsave
    unfold CreateOrderUseCase.execute CreateOrderUseCase.finish
    simp [hsave, Order.pullDomainEvents]
  · intro s hne htrim
    unfold CreateOrderUseCase.execute
    simp only [hne, if_neg]
    have hcreate : OrderId.create s = .error "El ID del pedido no puede estar vacío" := by
      unfold OrderId.create
      rw [if_pos (Or.inr htrim)]
    simp [hcreate]

/-- C4 witness: the always-succeeding repository double, an absent id, the
empty id and a whitespace-only id. -/
theorem CreateOrderUseCase.orderId_handling_witness :
    (CreateOrderUseCase.execute okRepo ⟨"ORD-GEN"⟩ ⟨none⟩ =
        .ok { Order.create ⟨"ORD-GEN"⟩ with domainEvents := [] })
  ∧ (CreateOrderUseCase.execute okRepo ⟨"ORD-GEN"⟩ ⟨some "   "⟩ =
        .error (.validation "El ID del pedido no puede estar vacío" (some "orderId"))) :=
  ⟨(CreateOrderUseCase.orderId_handling okRepo ⟨"ORD-GEN"⟩).2.2.2.2.1 rfl,
   (CreateOrderUseCase.orderId_handling okRepo ⟨"ORD-GEN"⟩).2.2.2.2.2 "   "
     (by decide) (by decide)⟩

/-- C5: `Order.calculateTotal` fails exactly when the order has no items or
its per-currency totals span more than one currency; on success the returned
`Money` carries the currency shared by every line and the sum over lines of
quantity times unit price. -/
theorem Order.calculateTotal_spec (o : Order) :
    (isOkB o.calculateTotal = false ↔
      (o.items = [] ∨ 1 < o.calculateTotalsByCurrency.length))
  ∧ (∀ m : Money, o.calculateTotal = .ok m →
      (∀ it ∈ o.items, it.unitPrice.currency.code = m.currency.code) ∧
      m.amount = lineSum o.items) := by
  by_cases hni : o.items = []
  · constructor
    · simp [Order.calculateTotal, hni, isOkB]
    · intro m hm
      simp [Order.calculateTotal, hni, isOkB] at hm
  · have hne := hni
    by_cases hlen : 1 < o.calculateTotalsByCurrency.length
    · constructor
      · simp [Order.calculateTotal, List.isEmpty_iff, hni, hlen, isOkB]
      · intro m hm
        simp [Order.calculateTotal, List.isEmpty_iff, hni, hlen, isOkB] at hm
    · have hnonempty := totals_nonempty o hne
      obtain ⟨e, rest, htot⟩ : ∃ e rest, o.calculateTotalsByCurrency = e :: rest := by
        cases h : o.calculateTotalsByCurrency with
        | nil => exact absurd h hnonempty
        | cons a l => exact ⟨a, l, rfl⟩
      have hrest : rest = [] := by
        rw [htot] at hlen
        simp only [List.length_cons, not_lt] at hlen
        have hz : rest.length = 0 := by omega
        exact List.length_eq_zero.mp hz
      subst hrest
      have hcover := totals_keys_cover o
      rw [htot] at hcover
      have hallc : ∀ it ∈ o.items, it.unitPrice.currency.code = e.1 := by
        intro it hit
        have := hcover it hit
        simpa using this
      obtain ⟨m', htot', ham, hcur⟩ := totals_coherent_char o e.1 hne hallc
      rw [htot] at htot'
      have he2 : e.2 = m' := by
        injection htot' with h1 h2
        rw [h1]
      have hok : o.calculateTotal = .ok e.2 := by
        unfold Order.calculateTotal
        rw [if_neg (by simp [List.isEmpty_iff, hni])]
        simp only [htot]
        rw [if_neg (by simp)]
        rfl
      constructor
      · rw [hok]
        simp [isOkB, hni, htot]
      · intro m hm
        rw [hok] at hm
        have hme : m = e.2 := by injection hm with h; exact h.symm
        subst hme
        rw [he2]
        constructor
        · intro it hit
          rw [hcur]
          exact hallc it hit
        · exact ham

/-- C5 witness: a one-line order (2 × USD 5) totals to USD 10. -/
theorem Order.calculateTotal_spec_witness :
    (∀ it ∈ totalOrder.items,
        it.unitPrice.currency.code = totalMoneyW.currency.code) ∧
    totalMoneyW.amount = lineSum totalOrder.items :=
  (Order.calculateTotal_spec totalOrder).2 totalMoneyW (by
    simp [Order.calculateTotal, Order.calculateTotalsByCurrency, Order.totalsStep,
      OrderItem.calculateSubtotal, Money.multiply, Money.create, totGet, totSet,
      totalOrder, Order.reconstitute, Order.ofItems, itemsSet, money5USD, qty2W,
      usdCur, totalMoneyW]
    norm_num)

/-- C6: `cleanupPublished(olderThanDays)` deletes exactly the outbox rows
whose `published_at` is non-null and earlier than now minus `olderThanDays`
days, returns the number of rows deleted, and keeps every unpublished row. -/
theorem OutboxDispatcher.cleanupPublished_spec
    (nowMs olderThanDays : ℤ) (table : List OutboxRow) :
    (∀ r ∈ table,
        (r ∈ (OutboxDispatcher.cleanupPublished nowMs olderThanDays table).1 ↔
          ¬∃ t, r.publishedAt = some t ∧ t < cleanupCutoff nowMs olderThanDays))
  ∧ (OutboxDispatcher.cleanupPublished nowMs olderThanDays table).1.Sublist table
  ∧ (OutboxDispatcher.cleanupPublished nowMs olderThanDays table).2 +
      (OutboxDispatcher.cleanupPublished nowMs olderThanDays table).1.length = table.length
  ∧ (∀ r ∈ table, r.publishedAt = none →
      r ∈ (OutboxDispatcher.cleanupPublished nowMs olderThanDays table).1) := by
  refine ⟨?_, ?_, ?_, ?_⟩
  · intro r hr
    simp only [OutboxDispatcher.cleanupPublished, List.mem_filter, hr, true_and,
      Bool.not_eq_true']
    cases hp : r.publishedAt with
    | none => simp [rowExpired, hp]
    | some t => simp [rowExpired, hp, decide_eq_false_iff_not]
  · exact List.filter_sublist table
  · exact filter_length_partition _ table
  · intro r hr hnull
    simp only [OutboxDispatcher.cleanupPublished, List.mem_filter, hr, true_and,
      Bool.not_eq_true']
    simp [rowExpired, hnull]

/-- C6 witness: with a cutoff strictly between the two published timestamps,
the unpublished row is kept and exactly one row is deleted. -/
theorem OutboxDispatcher.cleanupPublished_witness :
    rowUnpublished ∈ (OutboxDispatcher.cleanupPublished 1000000000 1 sampleOutbox).1 ∧
    (OutboxDispatcher.cleanupPublished 1000000000 1 sampleOutbox).2 +
      (OutboxDispatcher.cleanupPublished 1000000000 1 sampleOutbox).1.length =
      sampleOutbox.length :=
  ⟨(OutboxDispatcher.cleanupPublished_spec 1000000000 1 sampleOutbox).2.2.2
      rowUnpublished (by decide) (by decide),
   (OutboxDispatcher.cleanupPublished_spec 1000000000 1 sampleOutbox).2.2.1⟩

/-- C7: `Currency.create(s)` succeeds exactly when the upper-cased `s` is one
of the seven supported codes; no trimming is performed, so surrounding
whitespace always fails; on success the stored code is the upper-cased `s`. -/
theorem Currency.create_spec (s : String) :
    (isOkB (Currency.create s) = true ↔ jsToUpper s ∈ Currency.supportedCurrencies)
  ∧ (∀ c, Currency.create s = .ok c → c.code = jsToUpper s)
  ∧ (hasSurroundingWhitespaceB s = true → isOkB (Currency.create s) = false) := by
  have hvalid : Currency.isValidCurrencyCode (jsToUpper s) = true ↔
      jsToUpper s ∈ Currency.supportedCurrencies := by
    simp [Currency.isValidCurrencyCode, List.contains_iff_exists_mem_beq, beq_iff_eq]
  refine ⟨?_, ?_, ?_⟩
  · by_cases h : Currency.isValidCurrencyCode (jsToUpper s) = true
    · simp [Currency.create, h, isOkB, hvalid.mp h]
    · simp only [Currency.create, h]
      simp [isOkB, h]
      intro hmem
      exact h (hvalid.mpr hmem)
  · intro c hc
    by_cases h : Currency.isValidCurrencyCode (jsToUpper s) = true
    · simp only [Currency.create, h, if_true] at hc
      cases hc; rfl
    · simp [Currency.create, h] at hc
  · intro hws
    have hnm := ws_not_mem_supported s hws
    by_cases h : Currency.isValidCurrencyCode (jsToUpper s) = true
    · exact absurd (hvalid.mp h) hnm
    · simp [Currency.create, h, isOkB]

/-- C7 witness: `usd` succeeds (upper-cased member of the closed set); a
space-padded code fails. -/
theorem Currency.create_spec_witness :
    (isOkB (Currency.create "usd") = true ↔
      jsToUpper "usd" ∈ Currency.supportedCurrencies) ∧
    isOkB (Currency.create " USD") = false :=
  ⟨(Currency.create_spec "usd").1,
   (Currency.create_spec " USD").2.2 (by decide)⟩

end CleanOrders

namespace CleanOrders

/-- C8 counterexample: when `Math.random()` draws `0` (an allowed value,
whose base-36 rendering is `"0"` with an empty fractional part), the
generated id is `ORD-0-` — its random suffix has length 0, not 7, so the
claim that the suffix always has exactly 7 base-36 characters is false. -/
theorem OrderId.generate_seven_counterexample :
    (OrderId.generate 0 []).value = "ORD-0-" ∧
    ¬∃ r : String, (OrderId.generate 0 []).value =
        "ORD-" ++ natToBase36 0 ++ "-" ++ r ∧ r.length = 7 := by
  constructor
  · decide
  · rintro ⟨r, h, hlen⟩
    have hv : (OrderId.generate 0 []).value = "ORD-0-" := by decide
    rw [hv] at h
    have hL := congrArg String.length h
    have h6 : ("ORD-0-" : String).length = 6 := rfl
    have hn : (natToBase36 0).length = 1 := rfl
    have h4 : ("ORD-" : String).length = 4 := rfl
    have h1 : ("-" : String).length = 1 := rfl
    simp only [String.length_append, h6, hn, h4, h1, hlen] at hL
    omega

/-- C8 (amended): every generated id has the form
`ORD-<base-36 timestamp>-<r>` where `r` consists of AT MOST 7 base-36
characters (the fractional base-36 digits of the random draw, truncated by
`substring(2, 9)`; fewer than 7 when the rendering is short). -/
theorem OrderId.generate_format (nowMs : Nat) (randDigits : List (Fin 36)) :
    ∃ r : String,
      (OrderId.generate nowMs randDigits).value =
        "ORD-" ++ natToBase36 nowMs ++ "-" ++ r ∧
      r.length ≤ 7 ∧ ∀ c ∈ r.data, isBase36Char c = true := by
  refine ⟨jsSubstring (jsFracToStringBase36 randDigits) 2 9, rfl, ?_, ?_⟩
  · cases randDigits with
    | nil => decide
    | cons d ds =>
      show (List.take 7 (List.drop 2
        ('0' :: '.' :: (d :: ds).map (fun d => base36Char d.val)))).length ≤ 7
      simp
  · intro c hc
    cases randDigits with
    | nil => simp [jsSubstring, jsFracToStringBase36] at hc
    | cons d ds =>
      have hdata : (jsSubstring (jsFracToStringBase36 (d :: ds)) 2 9).data =
          List.take 7 ((d :: ds).map (fun d => base36Char d.val)) := rfl
      rw [hdata] at hc
      have hc' := List.mem_of_mem_take hc
      simp only [List.mem_map] at hc'
      obtain ⟨dd, _, hdd⟩ := hc'
      subst hdd
      exact base36Char_isBase36 dd

/-- C8 witness: a concrete draw with one fractional digit yields the prefix
form with a 1-character suffix. -/
theorem OrderId.generate_format_witness :
    ∃ r : String,
      (OrderId.generate 1 [⟨10, by norm_num⟩]).value =
        "ORD-" ++ natToBase36 1 ++ "-" ++ r ∧
      r.length ≤ 7 ∧ ∀ c ∈ r.data, isBase36Char c = true :=
  OrderId.generate_format 1 [⟨10, by norm_num⟩]

/-- C9: whenever `Order.addItem` returns a failure, the aggregate is left
exactly as it was — no line added or replaced, no event recorded. -/
theorem Order.addItem_failure_frame (o : Order) (p : ProductId) (q : Quantity)
    (m : Money) (hfail : isOkB (o.addItem p q m).1 = false) :
    (o.addItem p q m).2 = o := by
  by_cases h0 : m.amount = 0
  · simp [Order.addItem, h0]
  · cases hhd : o.items.head? with
    | none =>
      cases hget : itemsGet o.items p.value with
      | none =>
        simp [Order.addItem, Order.addItemCore, OrderItem.create, h0, hhd, hget, isOkB] at hfail
      | some ex =>
        simp [Order.addItem, Order.addItemCore, h0, hhd, hget, isOkB] at hfail
    | some f =>
      by_cases hc : f.unitPrice.hasSameCurrency m = true
      · cases hget : itemsGet o.items p.value with
        | none =>
          simp [Order.addItem, Order.addItemCore, OrderItem.create, h0, hhd, hc, hget, isOkB] at hfail
        | some ex =>
          simp [Order.addItem, Order.addItemCore, h0, hhd, hc, hget, isOkB] at hfail
      · simp [Order.addItem, h0, hhd, hc]

/-- C9 witness: a zero-price rejection leaves a fresh order unchanged. -/
theorem Order.addItem_failure_frame_witness :
    ((Order.create ⟨"ORD-W9"⟩).addItem ⟨"P1"⟩ qty1 zeroMoneyUSD).2 =
      Order.create ⟨"ORD-W9"⟩ :=
  Order.addItem_failure_frame (Order.create ⟨"ORD-W9"⟩) ⟨"P1"⟩ qty1 zeroMoneyUSD
    (by decide)

/-- C10: `OrderItem.create` validates nothing and succeeds on every input,
so the branch of `Order.addItem` that would propagate an `OrderItem.create`
error is unreachable: every `addItem` failure is the zero-price message or a
currency-mismatch message. -/
theorem OrderItem.create_total_spec :
    (∀ (p : ProductId) (q : Quantity) (m : Money),
        OrderItem.create p q m = .ok ⟨p, q, m⟩)
  ∧ (∀ (o : Order) (p : ProductId) (q : Quantity) (m : Money) (e : String),
        (o.addItem p q m).1 = .error e →
        e = Order.zeroPriceMsg ∨ ∃ c, e = Order.currencyMsg c) := by
  refine ⟨fun _ _ _ => rfl, ?_⟩
  intro o p q m e h
  by_cases h0 : m.amount = 0
  · simp [Order.addItem, h0] at h
    exact Or.inl h.symm
  · cases hhd : o.items.head? with
    | none =>
      cases hget : itemsGet o.items p.value with
      | none =>
        simp [Order.addItem, Order.addItemCore, OrderItem.create, h0, hhd, hget] at h
      | some ex =>
        simp [Order.addItem, Order.addItemCore, h0, hhd, hget] at h
    | some f =>
      by_cases hc : f.unitPrice.hasSameCurrency m = true
      · cases hget : itemsGet o.items p.value with
        | none =>
          simp [Order.addItem, Order.addItemCore, OrderItem.create, h0, hhd, hc, hget] at h
        | some ex =>
          simp [Order.addItem, Order.addItemCore, h0, hhd, hc, hget] at h
      · simp [Order.addItem, h0, hhd, hc] at h
        exact Or.inr ⟨_, h.symm⟩

/-- C10 witness: `OrderItem.create` succeeds on a concrete input, and the
error of a concrete failing `addItem` is the zero-price message. -/
theorem OrderItem.create_total_spec_witness :
    OrderItem.create ⟨"P1"⟩ qty1 zeroMoneyUSD = .ok ⟨⟨"P1"⟩, qty1, zeroMoneyUSD⟩ ∧
    (Order.zeroPriceMsg = Order.zeroPriceMsg ∨
      ∃ c, Order.zeroPriceMsg = Order.currencyMsg c) :=
  ⟨(OrderItem.create_total_spec).1 ⟨"P1"⟩ qty1 zeroMoneyUSD,
   (OrderItem.create_total_spec).2 (Order.create ⟨"ORD-W10"⟩) ⟨"P1"⟩ qty1
     zeroMoneyUSD Order.zeroPriceMsg (by decide)⟩

end CleanOrders
